import Mathlib

/-!
# Session supervisor (`src/session/processmanager.cpp`)

A shallow embedding of `ProcessManager`: the object's members and the effects it has on
its surroundings (processes started, handles released, environment variables written,
remote calls) are an explicit state that every member function transforms.  What the
supervisor reads from outside (whether a process start was confirmed, an exit code, the
existence of a file, the validity of a D-Bus interface) is passed in as an argument.
Diagnostic output (`qDebug`, `qInfo`, `qWarning`) is not modelled.
-/

namespace Session

/-- Identity of a heap-allocated `QProcess` (`new QProcess`). -/
abbrev Handle := Nat

/-- Effects of the supervisor that are visible outside the object, in program order. -/
inductive Action where
  /-- `QProcess::start` of a program with its arguments, on the given handle. -/
  | start (h : Handle) (program : String) (args : List String)
  /-- `QProcess::waitForStarted`; `none` is the call without an explicit bound. -/
  | waitForStarted (h : Handle) (msecs : Option Nat)
  /-- `QProcess::waitForFinished(-1)`. -/
  | waitForFinished (h : Handle)
  /-- `QObject::deleteLater` on a process. -/
  | deleteLater (h : Handle)
  /-- `delete p` on a (possibly null) process pointer. -/
  | delete (p : Option Handle)
  /-- `QDBusInterface::call` on a service with a method name and rendered arguments. -/
  | dbusCall (service method : String) (args : List String)
  /-- `qputenv`. -/
  | putenv (name value : String)
  /-- `QFile::exists` on a path. -/
  | fileExists (path : String)
  /-- `QThread::msleep`. -/
  | msleep (msecs : Nat)
  /-- `QEventLoop::exit` on the wait loop. -/
  | loopExit
  /-- `qApp->removeNativeEventFilter(this)`. -/
  | removeNativeEventFilter
  /-- `QTimer::singleShot(msecs, this, &ProcessManager::loadAutoStartProcess)`. -/
  | singleShotAutoStart (msecs : Nat)
  /-- `QCoreApplication::exit`. -/
  | appExit (code : Int)
  deriving DecidableEq, Repr

/-- A `QMap<QString, QProcess *>`: at most one value per key; a value may be `nullptr`.
Key order of iteration is not modelled: entries are kept in order of first insertion. -/
abbrev QMap := List (String × Option Handle)

/-- `QMap::insert` and `operator[]=`: replaces the value of an existing key, else adds. -/
def QMap.insert : QMap → String → Option Handle → QMap
  | [], k, v => [(k, v)]
  | (k', v') :: rest, k, v =>
    if k' = k then (k, v) :: rest else (k', v') :: QMap.insert rest k v

/-- `QMap::contains`. -/
def QMap.contains (m : QMap) (k : String) : Bool :=
  m.any (fun e => decide (e.1 = k))

/-- `QMap::value`: the pointer stored under a key (`nullptr` when absent). -/
def QMap.value (m : QMap) (k : String) : Option Handle :=
  match m.find? (fun e => decide (e.1 = k)) with
  | some e => e.2
  | none => none

/-- The process environment, most recent binding first. -/
abbrev Environ := List (String × String)

/-- `qgetenv`: the value of a variable, empty when it is not set. -/
def qgetenv (env : Environ) (name : String) : String :=
  match env.find? (fun e => decide (e.1 = name)) with
  | some e => e.2
  | none => ""

/-- `qEnvironmentVariableIsEmpty`: the variable is not set or is set to the empty string. -/
def qEnvironmentVariableIsEmpty (env : Environ) (name : String) : Bool :=
  decide (qgetenv env name = "")

/-- `qputenv`: binds the variable, dropping any earlier binding. -/
def qputenv (env : Environ) (name value : String) : Environ :=
  (name, value) :: env.filter (fun e => decide (e.1 ≠ name))

/-- The members of `ProcessManager` together with the process-wide state it acts on. -/
structure State where
  /-- `m_wmStarted`. -/
  wmStarted : Bool
  /-- `m_waitLoop`: `none` is `nullptr`, `some r` a `QEventLoop` with `isRunning() = r`. -/
  waitLoop : Option Bool
  /-- `m_systemProcess`. -/
  systemProcess : QMap
  /-- `m_autoStartProcess`. -/
  autoStartProcess : QMap
  /-- Environment variables of the supervisor process. -/
  env : Environ
  /-- The next `new QProcess` returns this handle. -/
  nextHandle : Handle
  /-- Effects issued so far. -/
  log : List Action
  deriving DecidableEq, Repr

/-- The constructor `ProcessManager::ProcessManager`: `m_wmStarted(false)`,
`m_waitLoop(nullptr)`, both maps empty. -/
def init (env : Environ) : State :=
  { wmStarted := false, waitLoop := none, systemProcess := [], autoStartProcess := [],
    env := env, nextHandle := 0, log := [] }

/-- Programs started by a sequence of effects, with their arguments, in order. -/
def startedPrograms : List Action → List (String × List String)
  | [] => []
  | Action.start _ p a :: rest => (p, a) :: startedPrograms rest
  | _ :: rest => startedPrograms rest

/-! ## Autostart discovery -/

/-- The keys of the `Desktop Entry` group of one `*.desktop` file that the supervisor
reads: `OnlyShowIn` and `Exec`, each present or not. -/
structure DesktopEntry where
  onlyShowIn : Option String
  exec : Option String
  deriving DecidableEq, Repr

/-- `desktop.value("Exec").toString()`: the empty string when the key is absent. -/
def DesktopEntry.execValue (e : DesktopEntry) : String :=
  e.exec.getD ""

/-- Case-sensitive substring search on the characters of a string. -/
def containsChars : List Char → List Char → Bool
  | [], pat => pat.isEmpty
  | c :: cs, pat => pat.isPrefixOf (c :: cs) || containsChars cs pat

/-- `QString::contains(const QString &)`. -/
def qcontains (s pat : String) : Bool :=
  containsChars s.data pat.data

/-- The inner loop of `loadAutoStartProcess` over the files of one directory. -/
def scanFiles : List DesktopEntry → List String → List String
  | [], execList => execList
  | desktop :: rest, execList =>
    if desktop.onlyShowIn.isSome then scanFiles rest execList
    else
      let execValue := desktop.execValue
      if qcontains execValue "gmenudbusmenuproxy" then scanFiles rest execList
      else if execValue ≠ "" then scanFiles rest (execList ++ [execValue])
      else scanFiles rest execList

/-- The outer loop of `loadAutoStartProcess` over the autostart directories. -/
def scanDirs : List (List DesktopEntry) → List String → List String
  | [], execList => execList
  | d :: rest, execList => scanDirs rest (scanFiles d execList)

/-- The second loop of `loadAutoStartProcess`: start each command, wait for it without a
bound, keep the handle when `exitCode() == 0` and discard it otherwise. -/
def launchExecList (exitCode : Handle → Int) : List String → State → State
  | [], s => s
  | exec :: rest, s =>
    let process := s.nextHandle
    let s1 := { s with nextHandle := process + 1,
                       log := s.log ++ [Action.start process exec [],
                                        Action.waitForStarted process none] }
    if exitCode process = 0 then
      launchExecList exitCode rest
        { s1 with autoStartProcess := s1.autoStartProcess.insert exec (some process) }
    else
      launchExecList exitCode rest { s1 with log := s1.log ++ [Action.deleteLater process] }

/-- `ProcessManager::loadAutoStartProcess`.  `dirs` is what the scan of the autostart
directories finds: per directory, in scan order, the entries of its `*.desktop` files. -/
def loadAutoStartProcess (dirs : List (List DesktopEntry)) (exitCode : Handle → Int)
    (s : State) : State :=
  launchExecList exitCode (scanDirs dirs []) s

/-! ## Daemon and desktop-shell tiers -/

/-- The roster loop shared, statement for statement, by `startDaemonProcess` and
`startDesktopProcess`: start the program, wait up to 3000 ms for the start to be
confirmed; on failure `deleteLater` the process and `continue`, otherwise insert it into
`m_autoStartProcess` under the program name.  `waitForStarted h` is the result of
`process->waitForStarted(3000)` on handle `h`; the channel mode set before the start is
not modelled. -/
def launchRoster (waitForStarted : Handle → Bool) :
    List (String × List String) → State → State
  | [], s => s
  | pair :: rest, s =>
    let process := s.nextHandle
    let s1 := { s with nextHandle := process + 1,
                       log := s.log ++ [Action.start process pair.1 pair.2,
                                        Action.waitForStarted process (some 3000)] }
    if !waitForStarted process then
      launchRoster waitForStarted rest { s1 with log := s1.log ++ [Action.deleteLater process] }
    else
      launchRoster waitForStarted rest
        { s1 with autoStartProcess := s1.autoStartProcess.insert pair.1 (some process) }

/-- The list built at the head of `startDaemonProcess`. -/
def daemonRoster (env : Environ) : List (String × List String) :=
  [("cutefish-settings-daemon", []), ("cutefish-gmenuproxy", []), ("chotkeys", [])]
    ++ (if !qEnvironmentVariableIsEmpty env "DISPLAY" then [("cutefish-xembedsniproxy", [])]
        else [])

/-- `ProcessManager::startDaemonProcess`. -/
def startDaemonProcess (waitForStarted : Handle → Bool) (s : State) : State :=
  launchRoster waitForStarted (daemonRoster s.env) s

/-- The list built at the head of `startDesktopProcess`.  `fileExists` answers
`QFile(path).exists()`; `finished` is the stored value of the key `Finished` in the
settings `cutefishos/login`, `none` when the key is not stored (the default `false` is
then used). -/
def desktopRoster (fileExists : String → Bool) (finished : Option Bool) :
    List (String × List String) :=
  [("cutefish-filemanager", ["--desktop"]), ("cutefish-statusbar", []), ("cutefish-dock", []),
   ("cutefish-launcher", []),
   ("cutefish-notificationd", []), ("cutefish-powerman", []), ("cutefish-clipboard", [])]
    ++ (if fileExists "/usr/bin/cutefish-welcome" &&
            !fileExists "/run/live/medium/live/filesystem.squashfs" then
          (if !finished.getD false then [("/usr/bin/cutefish-welcome", [])]
           else [("/usr/bin/cutefish-welcome", ["-d"])])
        else [])

/-- `ProcessManager::startDesktopProcess`. -/
def startDesktopProcess (fileExists : String → Bool) (finished : Option Bool)
    (waitForStarted : Handle → Bool) (s : State) : State :=
  let s1 := launchRoster waitForStarted (desktopRoster fileExists finished) s
  { s1 with log := s1.log ++ [Action.singleShotAutoStart 100] }

/-! ## Window manager -/

/-- The loop `while (!QFile::exists(socketPath) && timer.elapsed() < 3000) msleep(50)`.
`socketAt t` tells whether the socket exists `t` ms after the timer was started; the
`i`-th sleep lasts `50 + overrun i` ms.  `none` when the fuel runs out. -/
def pollSocket (socketAt : Nat → Bool) (overrun : Nat → Nat) (socketPath : String) :
    Nat → Nat → Nat → List Action → Option (Nat × List Action)
  | 0, _, _, _ => none
  | fuel + 1, i, elapsed, log =>
    if !socketAt elapsed && decide (elapsed < 3000) then
      pollSocket socketAt overrun socketPath fuel (i + 1) (elapsed + 50 + overrun i)
        (log ++ [Action.fileExists socketPath, Action.msleep 50])
    else
      some (elapsed, log ++ [Action.fileExists socketPath])

/-- `ProcessManager::startWindowManager`.  `appWayland` is `m_app->wayland()` and
`runtimeDir` is `QStandardPaths::writableLocation(QStandardPaths::RuntimeLocation)`. -/
def startWindowManager (appWayland : Bool) (runtimeDir : String) (socketAt : Nat → Bool)
    (overrun : Nat → Nat) (s : State) : Option State :=
  if !qEnvironmentVariableIsEmpty s.env "WAYLAND_DISPLAY" then some s
  else if !appWayland then some s
  else
    let wmProcess := s.nextHandle
    let s1 := { s with nextHandle := wmProcess + 1,
                       log := s.log ++ [Action.start wmProcess "kwin_wayland" []] }
    let s2 :=
      if qEnvironmentVariableIsEmpty s1.env "WAYLAND_DISPLAY" then
        { s1 with env := qputenv s1.env "WAYLAND_DISPLAY" "wayland-0",
                  log := s1.log ++ [Action.putenv "WAYLAND_DISPLAY" "wayland-0"] }
      else s1
    let socketPath := runtimeDir ++ "/" ++ qgetenv s2.env "WAYLAND_DISPLAY"
    match pollSocket socketAt overrun socketPath 61 0 0 s2.log with
    | none => none
    | some (_, log) => some { s2 with log := log ++ [Action.fileExists socketPath] }

/-- `ProcessManager::start`. -/
def start (appWayland : Bool) (runtimeDir : String) (socketAt : Nat → Bool)
    (overrun : Nat → Nat) (waitForStarted : Handle → Bool) (s : State) : Option State :=
  (startWindowManager appWayland runtimeDir socketAt overrun s).map
    (startDaemonProcess waitForStarted)

/-! ## Readiness -/

/-- `ProcessManager::nativeEventFilter`.  `wmName` is what
`NETRootInfo(QX11Info::connection(), NET::SupportingWMCheck).wmName()` yields when the
event arrives.  The result is the returned `bool` and the state afterwards. -/
def nativeEventFilter (eventType : String) (wmName : String) (s : State) : Bool × State :=
  if eventType ≠ "xcb_generic_event_t" then (false, s)
  else
    let s' :=
      if !s.wmStarted && s.waitLoop.isSome then
        if wmName ≠ "" then
          let s1 := { s with wmStarted := true }
          let s2 :=
            if s1.waitLoop = some true then
              { s1 with waitLoop := some false, log := s1.log ++ [Action.loopExit] }
            else s1
          { s2 with log := s2.log ++ [Action.removeNativeEventFilter] }
        else s
      else s
    (false, s')

/-- The states the supervisor passes through when the given events `(eventType, wmName)`
are delivered to `nativeEventFilter` one after the other, the starting state first. -/
def runEvents : List (String × String) → State → List State
  | [], s => [s]
  | ev :: rest, s => s :: runEvents rest (nativeEventFilter ev.1 ev.2 s).2

/-- Number of positions of a run at which `m_wmStarted` goes from `false` to `true`. -/
def countFlips : List State → Nat
  | a :: b :: rest => (if !a.wmStarted && b.wmStarted then 1 else 0) + countFlips (b :: rest)
  | _ => 0

/-! ## Logout and teardown -/

/-- `ProcessManager::logout`.  `kwinValid` and `loginValid` are the results of
`isValid()` on the two D-Bus interfaces; `killallExit` is how the `killall` helper ends
(`none`: it could not be started), which the function never inspects.  The destruction of
the locals when the function returns is not modelled. -/
def logout (kwinValid loginValid : Bool) (_killallExit : Option Int) (s : State) : State :=
  let s1 :=
    if kwinValid then
      { s with log := s.log ++ [Action.dbusCall "org.kde.KWin" "aboutToSaveSession" ["wayfish"],
                                Action.dbusCall "org.kde.KWin" "setState" ["2"]] }
    else s
  let p := s1.nextHandle
  let s2 := { s1 with nextHandle := p + 1,
                      log := s1.log ++ [Action.start p "killall" ["kglobalaccel5"],
                                        Action.waitForFinished p] }
  let s3 :=
    if loginValid then
      { s2 with log := s2.log ++ [Action.dbusCall "org.freedesktop.login1" "Terminate" []] }
    else s2
  { s3 with log := s3.log ++ [Action.appExit 0] }

/-- One step of the destructor loop: `delete p; m_systemProcess[i.key()] = nullptr`. -/
def releaseEntry (s : State) (e : String × Option Handle) : State :=
  { s with log := s.log ++ [Action.delete e.2],
           systemProcess := s.systemProcess.insert e.1 none }

/-- `ProcessManager::~ProcessManager`, up to the end of its body.  `platformWayland` is
`KWindowSystem::isPlatformWayland()`.  The `QMapIterator` walks a copy of
`m_systemProcess` taken when it is constructed. -/
def destructor (platformWayland : Bool) (s : State) : State :=
  let s1 :=
    if !platformWayland then { s with log := s.log ++ [Action.removeNativeEventFilter] }
    else s
  s1.systemProcess.foldl releaseEntry s1

/-- Handles released by a sequence of effects through `delete`. -/
def deletedHandles : List Action → List Handle
  | [] => []
  | Action.delete (some h) :: rest => h :: deletedHandles rest
  | _ :: rest => deletedHandles rest

end Session

namespace Session

/-! ## Autostart discovery: theorems -/

theorem containsChars_iff (s pat : List Char) :
    containsChars s pat = true ↔ pat <:+: s := by
  induction s with
  | nil => cases pat <;> simp [containsChars]
  | cons c cs ih =>
    rw [containsChars, Bool.or_eq_true, ih, List.infix_cons_iff, List.isPrefixOf_iff_prefix]

/-- The test applied to one entry by the first loop of `loadAutoStartProcess`. -/
theorem scanFiles_eq (es : List DesktopEntry) (acc : List String) :
    scanFiles es acc = acc ++ (es.filter (fun e => decide (e.onlyShowIn = none ∧
        ¬ ("gmenudbusmenuproxy".data <:+: e.execValue.data) ∧ e.execValue ≠ ""))).map
          DesktopEntry.execValue := by
  induction es generalizing acc with
  | nil => simp [scanFiles]
  | cons e rest ih =>
    rw [scanFiles]
    cases hO : e.onlyShowIn with
    | some v => simp [ih, hO]
    | none =>
      by_cases hc : "gmenudbusmenuproxy".data <:+: e.execValue.data
      · have : qcontains e.execValue "gmenudbusmenuproxy" = true :=
          (containsChars_iff _ _).2 hc
        simp [ih, hO, hc, this]
      · have : qcontains e.execValue "gmenudbusmenuproxy" = false := by
          rw [← Bool.not_eq_true]
          exact fun h => hc ((containsChars_iff _ _).1 h)
        by_cases he : e.execValue = ""
        · simp [ih, hO, hc, this, he]
        · simp [ih, hO, hc, this, he]

theorem scanDirs_eq (dirs : List (List DesktopEntry)) (acc : List String) :
    scanDirs dirs acc = acc ++ (dirs.flatten.filter (fun e => decide (e.onlyShowIn = none ∧
        ¬ ("gmenudbusmenuproxy".data <:+: e.execValue.data) ∧ e.execValue ≠ ""))).map
          DesktopEntry.execValue := by
  induction dirs generalizing acc with
  | nil => simp [scanDirs]
  | cons d rest ih => simp [scanDirs, ih, scanFiles_eq]

theorem startedPrograms_append (l₁ l₂ : List Action) :
    startedPrograms (l₁ ++ l₂) = startedPrograms l₁ ++ startedPrograms l₂ := by
  induction l₁ with
  | nil => rfl
  | cons a rest ih => cases a <;> simp [startedPrograms, ih]

theorem launchExecList_started (exitCode : Handle → Int) (l : List String) (s : State) :
    startedPrograms (launchExecList exitCode l s).log
      = startedPrograms s.log ++ l.map (fun exec => (exec, [])) := by
  induction l generalizing s with
  | nil => simp [launchExecList]
  | cons exec rest ih =>
    rw [launchExecList]
    split <;> simp [ih, startedPrograms_append, startedPrograms]

/-- C1: the commands `loadAutoStartProcess` starts are, in scan order, the `Exec` values
of the discovered entries that have no `OnlyShowIn` key, whose `Exec` does not contain
`gmenudbusmenuproxy` and whose `Exec` is not empty, each started as a program without
arguments; for the four entries A, B, C, D of the example these are `fooproxy` and `bar`. -/
theorem loadAutoStartProcess_launches (dirs : List (List DesktopEntry))
    (exitCode : Handle → Int) (s : State) :
    startedPrograms (loadAutoStartProcess dirs exitCode s).log
        = startedPrograms s.log ++
          ((dirs.flatten.filter (fun e => decide (e.onlyShowIn = none ∧
              ¬ ("gmenudbusmenuproxy".data <:+: e.execValue.data) ∧ e.execValue ≠ ""))).map
            DesktopEntry.execValue).map (fun exec => (exec, []))
    ∧ ∀ (restriction : String) (execB : Option String),
        startedPrograms (loadAutoStartProcess
            [[⟨none, some "fooproxy"⟩, ⟨some restriction, execB⟩,
              ⟨none, some "gmenudbusmenuproxy --x"⟩, ⟨none, some "bar"⟩]] exitCode s).log
          = startedPrograms s.log ++ [("fooproxy", []), ("bar", [])] := by
  refine ⟨?_, ?_⟩
  · rw [loadAutoStartProcess, launchExecList_started, scanDirs_eq]
    simp
  · intro restriction execB
    rw [loadAutoStartProcess, launchExecList_started]
    have h1 : qcontains "fooproxy" "gmenudbusmenuproxy" = false := by decide
    have h2 : qcontains "gmenudbusmenuproxy --x" "gmenudbusmenuproxy" = true := by decide
    have h3 : qcontains "bar" "gmenudbusmenuproxy" = false := by decide
    simp [scanDirs, scanFiles, DesktopEntry.execValue, h1, h2, h3]

/-! ## Registry and roster tiers: theorems -/

theorem handle_succ (n j : Nat) : n + 1 + j = n + (j + 1) := by omega

theorem QMap.contains_insert (m : QMap) (k k' : String) (v : Option Handle) :
    (QMap.insert m k v).contains k' = (decide (k = k') || m.contains k') := by
  induction m with
  | nil => simp [QMap.insert, QMap.contains]
  | cons e rest ih =>
    obtain ⟨k0, v0⟩ := e
    unfold QMap.contains at ih ⊢
    by_cases h : k0 = k
    · subst h
      by_cases h' : k0 = k' <;> simp [QMap.insert, h']
    · simp only [QMap.insert, h, if_false, List.any_cons, ih]
      by_cases h1 : k = k' <;> by_cases h2 : k0 = k' <;> simp [h1, h2]

theorem QMap.value_insert (m : QMap) (k k' : String) (v : Option Handle) :
    (QMap.insert m k v).value k' = if k = k' then v else m.value k' := by
  induction m with
  | nil =>
    by_cases h : k = k' <;> simp [QMap.insert, QMap.value, h]
  | cons e rest ih =>
    obtain ⟨k0, v0⟩ := e
    unfold QMap.value at ih ⊢
    by_cases h : k0 = k
    · subst h
      by_cases h' : k0 = k' <;> simp [QMap.insert, h']
    · by_cases h2 : k0 = k'
      · have h3 : ¬ k = k' := fun hk => h (h2.trans hk.symm)
        subst h2
        simp [QMap.insert, h, h3]
      · simp only [QMap.insert, h, if_false, List.find?_cons, h2, decide_False]
        exact ih

theorem launchRoster_started (ok : Handle → Bool) (r : List (String × List String))
    (s : State) :
    startedPrograms (launchRoster ok r s).log = startedPrograms s.log ++ r := by
  induction r generalizing s with
  | nil => simp [launchRoster]
  | cons pair rest ih =>
    rw [launchRoster]
    split <;> simp [ih, startedPrograms_append, startedPrograms]

/-- The registry after the daemon tier has run twice, every start confirmed in the first
run and none in the second: the entries of the first run, with their handles. -/
theorem startDaemonProcess_rerun_trace :
    (startDaemonProcess (fun _ => false)
      (startDaemonProcess (fun _ => true) (init []))).autoStartProcess
    = [("cutefish-settings-daemon", some 0), ("cutefish-gmenuproxy", some 1),
       ("chotkeys", some 2)] := by
  decide

/-- The registry after the daemon tier and then the desktop-shell tier, when the starts on
handles 1 and 5 fail and every other start is confirmed. -/
theorem startDesktopProcess_trace :
    (startDesktopProcess (fun _ => false) none (fun h => decide (h ≠ 1 ∧ h ≠ 5))
      (startDaemonProcess (fun h => decide (h ≠ 1 ∧ h ≠ 5)) (init []))).autoStartProcess
    = [("cutefish-settings-daemon", some 0), ("chotkeys", some 2),
       ("cutefish-filemanager", some 3), ("cutefish-statusbar", some 4),
       ("cutefish-launcher", some 6), ("cutefish-notificationd", some 7),
       ("cutefish-powerman", some 8), ("cutefish-clipboard", some 9)] := by
  decide

/-- The daemon tier when the start of `cutefish-gmenuproxy` is not confirmed. -/
theorem startDaemonProcess_trace :
    (startDaemonProcess (fun h => decide (h ≠ 1)) (init [])).autoStartProcess
    = [("cutefish-settings-daemon", some 0), ("chotkeys", some 2)] := by decide

/-! ## Autostart launch: theorems -/

theorem launchExecList_contains (exitCode : Handle → Int) (l : List String) (s : State)
    (k : String) :
    (launchExecList exitCode l s).autoStartProcess.contains k = true
      ↔ s.autoStartProcess.contains k = true
        ∨ ∃ i, l[i]? = some k ∧ exitCode (s.nextHandle + i) = 0 := by
  induction l generalizing s with
  | nil => simp [launchExecList]
  | cons exec rest ih =>
    rw [launchExecList]
    by_cases hx : exitCode s.nextHandle = 0
    · simp only [hx, if_true, ih, QMap.contains_insert, Bool.or_eq_true, decide_eq_true_eq]
      constructor
      · rintro ((h | h) | ⟨i, hi, he⟩)
        · exact Or.inr ⟨0, by simp [h], by simpa using hx⟩
        · exact Or.inl h
        · exact Or.inr ⟨i + 1, by simpa using hi, by rw [← he, handle_succ]⟩
      · rintro (h | ⟨i, hi, he⟩)
        · exact Or.inl (Or.inr h)
        · cases i with
          | zero => exact Or.inl (Or.inl (by simpa using hi))
          | succ j => exact Or.inr ⟨j, by simpa using hi, by rw [← he, handle_succ]⟩
    · simp only [hx, if_false, ih]
      constructor
      · rintro (h | ⟨i, hi, he⟩)
        · exact Or.inl h
        · exact Or.inr ⟨i + 1, by simpa using hi, by rw [← he, handle_succ]⟩
      · rintro (h | ⟨i, hi, he⟩)
        · exact Or.inl h
        · cases i with
          | zero => exact absurd (by simpa using he) hx
          | succ j => exact Or.inr ⟨j, by simpa using hi, by rw [← he, handle_succ]⟩

theorem launchExecList_value (exitCode : Handle → Int) (l : List String) (s : State)
    (k : String) (h : Handle)
    (hv : (launchExecList exitCode l s).autoStartProcess.value k = some h) :
    s.autoStartProcess.value k = some h
      ∨ ∃ i, l[i]? = some k ∧ h = s.nextHandle + i ∧ exitCode h = 0 := by
  induction l generalizing s with
  | nil => exact Or.inl (by simpa [launchExecList] using hv)
  | cons exec rest ih =>
    rw [launchExecList] at hv
    by_cases hx : exitCode s.nextHandle = 0
    · simp only [hx, if_true] at hv
      rcases ih _ hv with h1 | ⟨i, hi, he, hz⟩
      · simp only [QMap.value_insert] at h1
        by_cases hk : exec = k
        · simp only [hk, if_true, Option.some.injEq] at h1
          exact Or.inr ⟨0, by simp [hk], by simp [← h1], by rw [← h1]; exact hx⟩
        · simp only [hk, if_false] at h1
          exact Or.inl h1
      · exact Or.inr ⟨i + 1, by simpa using hi, by rw [he]; exact handle_succ _ _, hz⟩
    · simp only [hx, if_false] at hv
      rcases ih _ hv with h1 | ⟨i, hi, he, hz⟩
      · exact Or.inl h1
      · exact Or.inr ⟨i + 1, by simpa using hi, by rw [he]; exact handle_succ _ _, hz⟩

theorem launchExecList_log_mono (exitCode : Handle → Int) (l : List String) (s : State)
    (a : Action) (ha : a ∈ s.log) : a ∈ (launchExecList exitCode l s).log := by
  induction l generalizing s with
  | nil => simpa [launchExecList] using ha
  | cons exec rest ih =>
    rw [launchExecList]
    split <;> exact ih _ (by simp [ha])

theorem launchExecList_discards (exitCode : Handle → Int) (l : List String) (s : State)
    (i : Nat) (hi : i < l.length) (hx : exitCode (s.nextHandle + i) ≠ 0) :
    Action.deleteLater (s.nextHandle + i) ∈ (launchExecList exitCode l s).log := by
  induction l generalizing s i with
  | nil => simp at hi
  | cons exec rest ih =>
    rw [launchExecList]
    cases i with
    | zero =>
      have hx' : ¬ exitCode s.nextHandle = 0 := by simpa using hx
      simp only [hx', if_false]
      exact launchExecList_log_mono _ _ _ _ (by simp)
    | succ j =>
      have hj : j < rest.length := by simpa using hi
      have e : s.nextHandle + (j + 1) = s.nextHandle + 1 + j := (handle_succ _ _).symm
      rw [e] at hx ⊢
      split
      · exact ih _ j hj hx
      · exact ih _ j hj hx

/-- C9: the second loop of `loadAutoStartProcess` starts every surviving command once, in
list order and without arguments, whatever the exit codes; afterwards a key is in the
registry exactly when it was there before or some start of that command reported exit code
0, every handle stored under a key was there before or comes from a start of that command
with exit code 0, and the handle of a start with another exit code is given to
`deleteLater`. -/
theorem autostart_registers_only_success (exitCode : Handle → Int) (l : List String)
    (s : State) :
    startedPrograms (launchExecList exitCode l s).log
        = startedPrograms s.log ++ l.map (fun exec => (exec, []))
    ∧ (∀ k, (launchExecList exitCode l s).autoStartProcess.contains k = true
          ↔ s.autoStartProcess.contains k = true
            ∨ ∃ i, l[i]? = some k ∧ exitCode (s.nextHandle + i) = 0)
    ∧ (∀ k h, (launchExecList exitCode l s).autoStartProcess.value k = some h →
          s.autoStartProcess.value k = some h
            ∨ ∃ i, l[i]? = some k ∧ h = s.nextHandle + i ∧ exitCode h = 0)
    ∧ (∀ i, i < l.length → exitCode (s.nextHandle + i) ≠ 0 →
          Action.deleteLater (s.nextHandle + i) ∈ (launchExecList exitCode l s).log) :=
  ⟨launchExecList_started exitCode l s, launchExecList_contains exitCode l s,
    launchExecList_value exitCode l s, launchExecList_discards exitCode l s⟩

/-- Three commands of which the second reports exit code 127. -/
theorem launchExecList_trace : (launchExecList (fun h => if h = 1 then 127 else 0)
    ["a", "b", "c"] (init [])).autoStartProcess = [("a", some 0), ("c", some 2)] := by decide

/-! ## Desktop-shell roster: theorems -/

/-- C10: the roster of `startDesktopProcess` is the file manager with `--desktop`, then
status bar, dock, launcher, notification daemon, power manager and clipboard without
arguments, followed by one welcome entry exactly when `/usr/bin/cutefish-welcome` exists
and the live-medium file does not; the welcome entry has the argument `-d` when the stored
`Finished` flag is true and no argument when it is false or not stored.  These are the
programs the function starts, in this order. -/
theorem desktopRoster_spec (fileExists : String → Bool) (finished : Option Bool)
    (ok : Handle → Bool) (s : State) :
    desktopRoster fileExists finished
        = [("cutefish-filemanager", ["--desktop"]), ("cutefish-statusbar", []),
           ("cutefish-dock", []), ("cutefish-launcher", []), ("cutefish-notificationd", []),
           ("cutefish-powerman", []), ("cutefish-clipboard", [])]
          ++ (if fileExists "/usr/bin/cutefish-welcome" = true
                ∧ fileExists "/run/live/medium/live/filesystem.squashfs" = false then
                [("/usr/bin/cutefish-welcome", if finished = some true then ["-d"] else [])]
              else [])
    ∧ startedPrograms (startDesktopProcess fileExists finished ok s).log
        = startedPrograms s.log ++ desktopRoster fileExists finished := by
  refine ⟨?_, ?_⟩
  · unfold desktopRoster
    cases fileExists "/usr/bin/cutefish-welcome" <;>
      cases fileExists "/run/live/medium/live/filesystem.squashfs" <;>
      rcases finished with _ | _ | _ <;> simp
  · simp [startDesktopProcess, startedPrograms_append, startedPrograms,
      launchRoster_started]

/-! ## Readiness: theorems -/

/-- C4 as stated fails: with a wait outstanding and a window-manager name present, an XCB
event flips `m_wmStarted` but the function returns `false`. -/
theorem nativeEventFilter_returns_false_on_success :
    ¬ (((nativeEventFilter "xcb_generic_event_t" "KWin"
            { init [] with waitLoop := some true }).1 = true
          ∧ (nativeEventFilter "xcb_generic_event_t" "KWin"
            { init [] with waitLoop := some true }).2.wmStarted = true)
        ↔ ("xcb_generic_event_t" = "xcb_generic_event_t" ∧ "KWin" ≠ ""
            ∧ ({ init [] with waitLoop := some true } : State).waitLoop ≠ none
            ∧ ({ init [] with waitLoop := some true } : State).wmStarted = false)) := by
  decide

/-- C4, amended: `nativeEventFilter` always returns `false`; it takes `m_wmStarted` from
`false` to `true` exactly when the event is an XCB event, the window-manager name is not
empty, the wait handle is not null and `m_wmStarted` is still `false`; in every other case
it leaves the whole state, `m_wmStarted` included, unchanged. -/
theorem nativeEventFilter_spec (eventType wmName : String) (s : State) :
    (nativeEventFilter eventType wmName s).1 = false
    ∧ ((s.wmStarted = false ∧ (nativeEventFilter eventType wmName s).2.wmStarted = true)
        ↔ (eventType = "xcb_generic_event_t" ∧ wmName ≠ "" ∧ s.waitLoop ≠ none
            ∧ s.wmStarted = false))
    ∧ (¬ (eventType = "xcb_generic_event_t" ∧ wmName ≠ "" ∧ s.waitLoop ≠ none
            ∧ s.wmStarted = false) →
        (nativeEventFilter eventType wmName s).2 = s) := by
  obtain ⟨started, loop, sp, ap, env, nh, log⟩ := s
  unfold nativeEventFilter
  by_cases he : eventType = "xcb_generic_event_t" <;> by_cases hn : wmName = "" <;>
    cases started <;> rcases loop with _ | _ | _ <;> simp [he, hn]

theorem nativeEventFilter_started (eventType wmName : String) (s : State)
    (h : s.wmStarted = true) : nativeEventFilter eventType wmName s = (false, s) := by
  unfold nativeEventFilter
  by_cases he : eventType = "xcb_generic_event_t" <;> simp [he, h]

theorem runEvents_started (evs : List (String × String)) (s : State)
    (h : s.wmStarted = true) : ∀ t ∈ runEvents evs s, t = s := by
  induction evs with
  | nil => simp [runEvents]
  | cons ev rest ih =>
    intro t ht
    simp only [runEvents, nativeEventFilter_started _ _ s h, List.mem_cons] at ht
    rcases ht with ht | ht
    · exact ht
    · exact ih t ht

theorem runEvents_head (evs : List (String × String)) (s : State) :
    ∃ tl, runEvents evs s = s :: tl := by
  cases evs with
  | nil => exact ⟨[], rfl⟩
  | cons ev rest => exact ⟨_, rfl⟩

theorem countFlips_started (evs : List (String × String)) (s : State)
    (h : s.wmStarted = true) : countFlips (runEvents evs s) = 0 := by
  induction evs with
  | nil => rfl
  | cons ev rest ih =>
    obtain ⟨tl, htl⟩ := runEvents_head rest s
    rw [runEvents, nativeEventFilter_started _ _ s h]
    rw [htl] at ih ⊢
    simp [countFlips, ih, h]

theorem countFlips_le_one (evs : List (String × String)) (s : State) :
    countFlips (runEvents evs s) ≤ 1 := by
  induction evs generalizing s with
  | nil => simp [runEvents, countFlips]
  | cons ev rest ih =>
    obtain ⟨tl, htl⟩ := runEvents_head rest (nativeEventFilter ev.1 ev.2 s).2
    have h1 := ih (nativeEventFilter ev.1 ev.2 s).2
    have h0 := countFlips_started rest (nativeEventFilter ev.1 ev.2 s).2
    rw [runEvents]
    rw [htl] at h0 h1 ⊢
    rw [countFlips]
    cases hs : (nativeEventFilter ev.1 ev.2 s).2.wmStarted with
    | false => simpa using h1
    | true =>
      rw [h0 hs]
      split <;> simp

theorem nativeEventFilter_exit_budget (eventType wmName : String) (s : State) :
    (nativeEventFilter eventType wmName s).2.log.count Action.loopExit
        + (if (nativeEventFilter eventType wmName s).2.wmStarted then 0 else 1)
      ≤ s.log.count Action.loopExit + (if s.wmStarted then 0 else 1) := by
  obtain ⟨started, loop, sp, ap, env, nh, log⟩ := s
  unfold nativeEventFilter
  by_cases he : eventType = "xcb_generic_event_t" <;> by_cases hn : wmName = "" <;>
    cases started <;> rcases loop with _ | _ | _ <;> simp [he, hn, List.count_append]

theorem runEvents_exit_budget (evs : List (String × String)) (s : State) :
    ∀ t ∈ runEvents evs s,
      t.log.count Action.loopExit + (if t.wmStarted then 0 else 1)
        ≤ s.log.count Action.loopExit + (if s.wmStarted then 0 else 1) := by
  induction evs generalizing s with
  | nil => simp [runEvents]
  | cons ev rest ih =>
    intro t ht
    simp only [runEvents, List.mem_cons] at ht
    rcases ht with ht | ht
    · rw [ht]
    · exact le_trans (ih _ t ht) (nativeEventFilter_exit_budget ev.1 ev.2 s)

theorem runEvents_chain (evs : List (String × String)) (s : State) :
    List.Chain' (fun a b => a.wmStarted = true → b.wmStarted = true) (runEvents evs s) := by
  induction evs generalizing s with
  | nil => simp [runEvents]
  | cons ev rest ih =>
    obtain ⟨tl, htl⟩ := runEvents_head rest (nativeEventFilter ev.1 ev.2 s).2
    have := ih (nativeEventFilter ev.1 ev.2 s).2
    rw [runEvents]
    rw [htl] at this ⊢
    refine List.Chain'.cons ?_ this
    intro h
    rw [nativeEventFilter_started _ _ s h]
    exact h

/-- C5: along every sequence of events delivered to `nativeEventFilter`, `m_wmStarted`
never goes from `true` back to `false` and goes from `false` to `true` at most once; a
call made when `m_wmStarted` is already `true` returns `false` and changes nothing, so
every state after the first success is that same state; and over the whole sequence the
wait loop is told to exit at most once. -/
theorem wmStarted_monotone (evs : List (String × String)) (s : State) :
    List.Chain' (fun a b => a.wmStarted = true → b.wmStarted = true) (runEvents evs s)
    ∧ countFlips (runEvents evs s) ≤ 1
    ∧ (∀ eventType wmName (t : State), t.wmStarted = true →
        nativeEventFilter eventType wmName t = (false, t))
    ∧ (s.wmStarted = true → ∀ t ∈ runEvents evs s, t = s)
    ∧ (∀ t ∈ runEvents evs s,
        t.log.count Action.loopExit ≤ s.log.count Action.loopExit + 1) := by
  refine ⟨runEvents_chain evs s, countFlips_le_one evs s,
    fun e n t h => nativeEventFilter_started e n t h, runEvents_started evs s, ?_⟩
  intro t ht
  have h := runEvents_exit_budget evs s t ht
  have h2 : (if s.wmStarted then 0 else 1) ≤ 1 := by split <;> simp
  omega

/-! ## Window manager: theorems -/

/-- C6: when `WAYLAND_DISPLAY` is set to a non-empty value, `startWindowManager` returns
with the state as it was: nothing is started, the socket is not probed and the
environment is unchanged. -/
theorem startWindowManager_skips (appWayland : Bool) (runtimeDir : String)
    (socketAt : Nat → Bool) (overrun : Nat → Nat) (s : State)
    (h : qgetenv s.env "WAYLAND_DISPLAY" ≠ "") :
    startWindowManager appWayland runtimeDir socketAt overrun s = some s := by
  simp [startWindowManager, qEnvironmentVariableIsEmpty, h]

/-- C6, for a session in which `WAYLAND_DISPLAY` is `wayland-1`. -/
theorem startWindowManager_skips_witness :
    qgetenv (init [("WAYLAND_DISPLAY", "wayland-1")]).env "WAYLAND_DISPLAY" ≠ ""
    ∧ startWindowManager true "/run/user/1000" (fun _ => false) (fun _ => 0)
        (init [("WAYLAND_DISPLAY", "wayland-1")])
      = some (init [("WAYLAND_DISPLAY", "wayland-1")]) :=
  ⟨by decide, startWindowManager_skips true "/run/user/1000" (fun _ => false) (fun _ => 0)
    (init [("WAYLAND_DISPLAY", "wayland-1")]) (by decide)⟩

theorem pollSocket_terminates (socketAt : Nat → Bool) (overrun : Nat → Nat)
    (socketPath : String) (fuel i elapsed : Nat) (log : List Action)
    (h : 3000 ≤ elapsed + 50 * fuel) :
    ∃ r, pollSocket socketAt overrun socketPath (fuel + 1) i elapsed log = some r := by
  induction fuel generalizing i elapsed log with
  | zero =>
    have : ¬ elapsed < 3000 := by omega
    simp [pollSocket, this]
  | succ n ih =>
    rw [pollSocket]
    split
    · exact ih _ _ _ (by omega)
    · exact ⟨_, rfl⟩

theorem pollSocket_started (socketAt : Nat → Bool) (overrun : Nat → Nat)
    (socketPath : String) (fuel i elapsed : Nat) (log : List Action)
    (r : Nat × List Action)
    (h : pollSocket socketAt overrun socketPath fuel i elapsed log = some r) :
    startedPrograms r.2 = startedPrograms log := by
  induction fuel generalizing i elapsed log with
  | zero => simp [pollSocket] at h
  | succ n ih =>
    rw [pollSocket] at h
    split at h
    · rw [ih _ _ _ h]
      simp [startedPrograms_append, startedPrograms]
    · simp only [Option.some.injEq] at h
      subst h
      simp [startedPrograms_append, startedPrograms]

theorem qgetenv_qputenv (env : Environ) (name value : String) :
    qgetenv (qputenv env name value) name = value := by
  simp [qgetenv, qputenv]

/-- C7 as stated fails: with `WAYLAND_DISPLAY` unset and `m_app->wayland()` false,
`startWindowManager` returns without starting anything and the variable stays empty. -/
theorem startWindowManager_not_wayland :
    qgetenv (init []).env "WAYLAND_DISPLAY" = ""
    ∧ ¬ ∃ s', startWindowManager false "/run/user/1000" (fun _ => true) (fun _ => 0)
          (init []) = some s'
        ∧ ("kwin_wayland", []) ∈ startedPrograms s'.log
        ∧ qgetenv s'.env "WAYLAND_DISPLAY" ≠ "" := by
  refine ⟨by decide, ?_⟩
  rintro ⟨s', h, _, hne⟩
  have h0 : startWindowManager false "/run/user/1000" (fun _ => true) (fun _ => 0)
      (init []) = some (init []) := by decide
  rw [h0, Option.some.injEq] at h
  subst h
  exact hne (by decide)

/-- C7, amended: when `WAYLAND_DISPLAY` is not populated and `m_app->wayland()` is true,
`startWindowManager` returns, having started `kwin_wayland` and nothing else, and
afterwards `WAYLAND_DISPLAY` is `wayland-0`; when `m_app->wayland()` is false it returns
with the state unchanged. -/
theorem startWindowManager_spawns (runtimeDir : String)
    (socketAt : Nat → Bool) (overrun : Nat → Nat) (s : State)
    (h : qgetenv s.env "WAYLAND_DISPLAY" = "") :
    (∃ s', startWindowManager true runtimeDir socketAt overrun s = some s'
        ∧ startedPrograms s'.log = startedPrograms s.log ++ [("kwin_wayland", [])]
        ∧ qgetenv s'.env "WAYLAND_DISPLAY" = "wayland-0")
    ∧ startWindowManager false runtimeDir socketAt overrun s = some s := by
  refine ⟨?_, ?_⟩
  · obtain ⟨r, hr⟩ := pollSocket_terminates socketAt overrun
      (runtimeDir ++ "/" ++ qgetenv (qputenv s.env "WAYLAND_DISPLAY" "wayland-0")
        "WAYLAND_DISPLAY") 60 0 0
      (s.log ++ [Action.start s.nextHandle "kwin_wayland" []]
        ++ [Action.putenv "WAYLAND_DISPLAY" "wayland-0"]) (by omega)
    have hs := pollSocket_started _ _ _ _ _ _ _ r hr
    simp only [startWindowManager, qEnvironmentVariableIsEmpty, h, decide_True,
      Bool.not_true, Bool.false_eq_true, if_false, if_true, hr]
    refine ⟨_, rfl, ?_, qgetenv_qputenv _ _ _⟩
    simp [startedPrograms_append, startedPrograms, hs]
  · simp [startWindowManager]

/-- C7 amended, for a fresh session whose socket appears 120 ms after the compositor is
started. -/
theorem startWindowManager_spawns_witness :
    qgetenv (init []).env "WAYLAND_DISPLAY" = ""
    ∧ ((∃ s', startWindowManager true "/run/user/1000" (fun t => decide (120 ≤ t))
              (fun _ => 0) (init []) = some s'
          ∧ startedPrograms s'.log = startedPrograms (init []).log ++ [("kwin_wayland", [])]
          ∧ qgetenv s'.env "WAYLAND_DISPLAY" = "wayland-0")
      ∧ startWindowManager false "/run/user/1000" (fun t => decide (120 ≤ t))
              (fun _ => 0) (init []) = some (init [])) :=
  ⟨by decide, startWindowManager_spawns "/run/user/1000" (fun t => decide (120 ≤ t))
    (fun _ => 0) (init []) (by decide)⟩

/-- The effects of `startWindowManager` when the socket appears after 120 ms: three
sleeps, then the loop ends and the socket is probed once more. -/
theorem startWindowManager_trace : (startWindowManager true "/run/user/1000"
    (fun t => decide (120 ≤ t)) (fun _ => 0) (init [])).map State.log
    = some [Action.start 0 "kwin_wayland" [], Action.putenv "WAYLAND_DISPLAY" "wayland-0",
        Action.fileExists "/run/user/1000/wayland-0", Action.msleep 50,
        Action.fileExists "/run/user/1000/wayland-0", Action.msleep 50,
        Action.fileExists "/run/user/1000/wayland-0", Action.msleep 50,
        Action.fileExists "/run/user/1000/wayland-0",
        Action.fileExists "/run/user/1000/wayland-0"] := by
  decide

/-! ## Logout and teardown: theorems -/

/-- C8: whatever the validity of the two D-Bus interfaces and however the `killall` helper
ends, the effects of `logout` are, in this order: the two KWin calls (only when the KWin
interface is valid), the start of `killall kglobalaccel5` and the wait for it to finish,
the `Terminate` call (only when the login interface is valid), and `exit(0)`, which is
the last effect and the only exit. -/
theorem logout_exits_zero_last (kwinValid loginValid : Bool) (killallExit : Option Int)
    (s : State) :
    (logout kwinValid loginValid killallExit s).log
        = s.log
          ++ (if kwinValid = true then
                [Action.dbusCall "org.kde.KWin" "aboutToSaveSession" ["wayfish"],
                 Action.dbusCall "org.kde.KWin" "setState" ["2"]]
              else [])
          ++ [Action.start s.nextHandle "killall" ["kglobalaccel5"],
              Action.waitForFinished s.nextHandle]
          ++ (if loginValid = true then
                [Action.dbusCall "org.freedesktop.login1" "Terminate" []]
              else [])
          ++ [Action.appExit 0]
    ∧ (logout kwinValid loginValid killallExit s).log.getLast? = some (Action.appExit 0)
    ∧ ((logout kwinValid loginValid killallExit s).log.drop s.log.length).count
        (Action.appExit 0) = 1
    ∧ ∀ code, Action.appExit code
        ∈ (logout kwinValid loginValid killallExit s).log.drop s.log.length → code = 0 := by
  cases kwinValid <;> cases loginValid <;>
    simp [logout, List.getLast?_append, List.count_append, List.count_cons]

theorem foldl_releaseEntry_autoStartProcess (l : List (String × Option Handle))
    (s : State) : (l.foldl releaseEntry s).autoStartProcess = s.autoStartProcess := by
  induction l generalizing s with
  | nil => rfl
  | cons e rest ih => rw [List.foldl_cons, ih, releaseEntry]

/-- The destructor never touches `m_autoStartProcess`, and when `m_systemProcess` is
empty it deletes nothing. -/
theorem destructor_frame (platformWayland : Bool) (s : State) :
    (destructor platformWayland s).autoStartProcess = s.autoStartProcess
    ∧ (s.systemProcess = [] →
        deletedHandles (destructor platformWayland s).log = deletedHandles s.log) := by
  refine ⟨?_, ?_⟩
  · rw [destructor, foldl_releaseEntry_autoStartProcess]
    split <;> rfl
  · intro h
    have hd : ∀ l : List Action,
        deletedHandles (l ++ [Action.removeNativeEventFilter]) = deletedHandles l := by
      intro l
      induction l with
      | nil => rfl
      | cons a rest ih => cases a with
        | delete p => cases p <;> simp [deletedHandles, ih]
        | _ => simp [deletedHandles, ih]
    cases platformWayland <;> simp [destructor, h, hd]

/-- C3 fails on the code: after the daemon tier has registered its three processes (all
starts confirmed, `DISPLAY` unset), the destructor releases none of their handles and
`m_autoStartProcess` still holds the three entries, because the destructor walks
`m_systemProcess`, which no tier fills. -/
theorem destructor_releases_nothing :
    (startDaemonProcess (fun _ => true) (init [])).autoStartProcess
        = [("cutefish-settings-daemon", some 0), ("cutefish-gmenuproxy", some 1),
           ("chotkeys", some 2)]
    ∧ (startDaemonProcess (fun _ => true) (init [])).systemProcess = []
    ∧ deletedHandles (destructor true (startDaemonProcess (fun _ => true) (init []))).log = []
    ∧ (destructor true (startDaemonProcess (fun _ => true) (init []))).autoStartProcess
        = [("cutefish-settings-daemon", some 0), ("cutefish-gmenuproxy", some 1),
           ("chotkeys", some 2)] := by
  decide

end Session
